import Mathlib

/-!
Verification development for the `gobase` serialized job queue and its
configuration-string parser.

The embedding translates the Go source:
* `JobQueue.Run` (the worker loop), `Join`, `JoinTimeout` wrappers — modelled
  as a deterministic trace function `runItems` over the queue contents, with
  Go's `defer`-at-function-exit semantics for the `LogPanic` handler: a panic
  raised by an operation body unwinds `Run` itself (the handler installed by
  `defer LogPanic(q.logger, "queue")` inside the loop only fires when `Run`
  returns), so the loop terminates on the first faulting operation.
* `NewJobQueue` / `Initialize` / `Stop` / `Enqueue` lifecycle — modelled as a
  record of the nilness of the context and cancel fields and the channel
  open/closed state, with Go channel faults (send on closed channel, close of
  closed channel, call of nil function) made explicit as an error type.
* the `select` race between the operation channel and context cancellation —
  modelled as a nondeterministic small-step relation `QStep`.
* `ParseConfstr` with Go's `strings.Split` / `strings.SplitN` / `strings.Contains`
  over `List Char`.
-/

namespace Gobase

/-- Behaviour of an operation body (`JobOp`): it either returns normally or
raises a runtime fault (panic). The executor never inspects operations, so
this is the only distinction the model needs. -/
inductive Body
  | ok
  | panics
deriving DecidableEq

/-- An operation submitted to the queue: an opaque identifier plus its
behaviour when invoked. -/
structure Op where
  id : Nat
  body : Body
deriving DecidableEq

/-- An element of the submission channel `q.op`, as built by the three
submission primitives of the Go source:
* `plain op` — `Enqueue(op)` sends the bare operation;
* `join op` — `Join` sends `func(ctx) { op(ctx); c <- true }`;
* `joinT op elapsed timeout` — `JoinTimeout` sends the wrapper that first
  compares `time.Since(started)` (here `elapsed`, the nanoseconds between
  submission and dequeue) against `startTimeout` (here `timeout`). -/
inductive Item
  | plain (op : Op)
  | join (op : Op)
  | joinT (op : Op) (elapsed timeout : Nat)
deriving DecidableEq

/-- Observable events of a run of the worker loop. `signal i b` is the send
`c <- b` on the private completion channel of the `Join`/`JoinTimeout` caller
that submitted operation `i`; receiving it is the moment that caller is
unblocked and returns `b`. -/
inductive Event
  | ran (id : Nat)
  | faulted (id : Nat)
  | signal (id : Nat) (completed : Bool)
deriving DecidableEq

/-- The operation carried by a queue item. -/
def Item.op : Item → Op
  | .plain op => op
  | .join op => op
  | .joinT op _ _ => op

/-- Identifier of the operation carried by a queue item. -/
def Item.opId (it : Item) : Nat := it.op.id

/-- Execution of one dequeued item inside the loop body of `JobQueue.Run`:
the events it emits, paired with `true` when the invocation panicked.

`Join`'s wrapper is `op(ctx); c <- true` with no deferred guard, so a panic in
`op` skips the send. `JoinTimeout`'s wrapper is
`if time.Since(started) >= startTimeout { c <- false } else { op(ctx); c <- true }`. -/
def execItem : Item → List Event × Bool
  | .plain op =>
      match op.body with
      | .ok => ([.ran op.id], false)
      | .panics => ([.faulted op.id], true)
  | .join op =>
      match op.body with
      | .ok => ([.ran op.id, .signal op.id true], false)
      | .panics => ([.faulted op.id], true)
  | .joinT op elapsed timeout =>
      if timeout ≤ elapsed then ([.signal op.id false], false)
      else
        match op.body with
        | .ok => ([.ran op.id, .signal op.id true], false)
        | .panics => ([.faulted op.id], true)

/-- Outcome of the worker loop on a queue snapshot: the ordered trace of
events, and whether the loop terminated because a panic unwound `Run`
(the function-level `defer LogPanic` then recovers and logs it, but `Run`
has already returned — the loop is dead). -/
structure RunResult where
  events : List Event
  panicked : Bool
deriving DecidableEq

/-- The worker loop `JobQueue.Run` applied to the operations accepted into the
channel, in acceptance order. The single consumer dequeues and invokes items
one at a time. Because the `LogPanic` recovery is a `defer` of `Run` itself
(registered inside the loop, executed only at function exit per Go semantics),
the first panicking invocation terminates the whole loop: the remaining items
are never dequeued. -/
def runItems : List Item → RunResult
  | [] => ⟨[], false⟩
  | it :: rest =>
      let e := execItem it
      if e.2 then ⟨e.1, true⟩
      else
        let r := runItems rest
        ⟨e.1 ++ r.events, r.panicked⟩

/-- Predicate for an item whose invocation runs the operation body to
completion: the body returns normally, and a `JoinTimeout` wrapper is not
stale at dequeue time. -/
def runsBody : Item → Bool
  | .plain op => decide (op.body = Body.ok)
  | .join op => decide (op.body = Body.ok)
  | .joinT op elapsed timeout => decide (op.body = Body.ok) && decide (elapsed < timeout)

/-- Sequence of operations executed to completion, in trace order. -/
def execOrder (evs : List Event) : List Nat :=
  evs.filterMap fun e =>
    match e with
    | .ran i => some i
    | _ => none

/-- Identifier an event refers to. -/
def Event.evId : Event → Nat
  | .ran i => i
  | .faulted i => i
  | .signal i _ => i

theorem runItems_append (xs ys : List Item) :
    runItems (xs ++ ys) =
      if (runItems xs).panicked then runItems xs
      else ⟨(runItems xs).events ++ (runItems ys).events, (runItems ys).panicked⟩ := by
  induction xs with
  | nil => simp [runItems]
  | cons it rest ih =>
    by_cases h : (execItem it).2
    · simp [runItems, h]
    · show runItems (it :: (rest ++ ys)) = _
      rw [runItems, runItems]
      simp only [h, if_false, Bool.false_eq_true, ih]
      by_cases hp : (runItems rest).panicked
      · simp [hp, runItems, h]
      · simp [hp, List.append_assoc]

theorem execItem_evId (it : Item) :
    ∀ x ∈ (execItem it).1, Event.evId x = it.opId := by
  intro x hx
  cases it with
  | plain op =>
    cases hb : op.body <;> simp only [execItem, hb, List.mem_singleton] at hx <;>
      simp [hx, Event.evId, Item.opId, Item.op]
  | join op =>
    cases hb : op.body <;>
      simp only [execItem, hb, List.mem_singleton, List.mem_cons,
        List.not_mem_nil, or_false] at hx
    · rcases hx with hx | hx <;> simp [hx, Event.evId, Item.opId, Item.op]
    · simp [hx, Event.evId, Item.opId, Item.op]
  | joinT op elapsed timeout =>
    by_cases ht : timeout ≤ elapsed
    · simp only [execItem, if_pos ht, List.mem_singleton] at hx
      simp [hx, Event.evId, Item.opId, Item.op]
    · cases hb : op.body <;>
        simp only [execItem, if_neg ht, hb, List.mem_singleton, List.mem_cons,
          List.not_mem_nil, or_false] at hx
      · rcases hx with hx | hx <;> simp [hx, Event.evId, Item.opId, Item.op]
      · simp [hx, Event.evId, Item.opId, Item.op]

theorem evId_mem_of_mem_runItems (items : List Item) (e : Event)
    (h : e ∈ (runItems items).events) : e.evId ∈ items.map Item.opId := by
  induction items with
  | nil => simp [runItems] at h
  | cons it rest ih =>
    by_cases hp : (execItem it).2
    · rw [runItems] at h
      simp only [hp, if_true] at h
      simp [execItem_evId it e h]
    · rw [runItems] at h
      simp only [hp, if_false, Bool.false_eq_true] at h
      rcases List.mem_append.mp h with h1 | h2
      · simp [execItem_evId it e h1]
      · simp [ih h2]

theorem runItems_cons_ok (it : Item) (rest : List Item) (h : (execItem it).2 = false) :
    runItems (it :: rest) =
      ⟨(execItem it).1 ++ (runItems rest).events, (runItems rest).panicked⟩ := by
  rw [runItems]
  simp [h]

theorem runItems_cons_bad (it : Item) (rest : List Item) (h : (execItem it).2 = true) :
    runItems (it :: rest) = ⟨(execItem it).1, true⟩ := by
  rw [runItems]
  simp [h]

theorem execOrder_append (a b : List Event) :
    execOrder (a ++ b) = execOrder a ++ execOrder b := by
  simp [execOrder, List.filterMap_append]

/-- C1: the claim states that a runtime fault (panic) inside an operation is
caught and logged, does not terminate the worker loop, and a later-queued
operation B still executes. In the code, the recovery point
`defer LogPanic(q.logger, "queue")` is a `defer` of `Run` itself, registered
inside the loop: per Go semantics it only executes when `Run` returns. So a
panic in operation A unwinds `Run` (the fault IS recovered and logged at
function exit and does not propagate further), but `Run` has returned: the
loop is dead and operation B, although already queued, never executes. This
theorem evaluates the embedded loop at the failing input — queue
`[A panics, B ok]` — and shows the trace contains only A's fault, B never
ran, and the loop terminated through the panic path. -/
theorem run_fault_kills_loop :
    runItems [Item.plain ⟨0, Body.panics⟩, Item.plain ⟨1, Body.ok⟩] =
      ⟨[Event.faulted 0], true⟩ ∧
    Event.ran 1 ∉ (runItems [Item.plain ⟨0, Body.panics⟩,
        Item.plain ⟨1, Body.ok⟩]).events := by
  decide

/-- C2: the worker loop `Run` executes the operations accepted into the
submission channel one at a time, in exactly acceptance order. The channel
serializes concurrent producers into a single acceptance sequence (modelled
by the input list) and `Run` is the sole consumer, dequeuing and invoking
synchronously — so execution is sequential by construction and the trace of
completed operations equals the acceptance sequence whenever every body runs
to completion. -/
theorem run_executes_in_acceptance_order (items : List Item)
    (h : ∀ it ∈ items, runsBody it = true) :
    execOrder (runItems items).events = items.map Item.opId ∧
    (runItems items).panicked = false := by
  induction items with
  | nil => exact ⟨rfl, rfl⟩
  | cons it rest ih =>
    have hit := h it (List.mem_cons_self it rest)
    obtain ⟨ih1, ih2⟩ := ih fun x hx => h x (List.mem_cons_of_mem it hx)
    have hexec : (execItem it).2 = false ∧ execOrder (execItem it).1 = [it.opId] := by
      cases it with
      | plain op =>
        simp only [runsBody, decide_eq_true_eq] at hit
        simp [execItem, hit, execOrder, Item.opId, Item.op]
      | join op =>
        simp only [runsBody, decide_eq_true_eq] at hit
        simp [execItem, hit, execOrder, Item.opId, Item.op]
      | joinT op elapsed timeout =>
        simp only [runsBody, Bool.and_eq_true, decide_eq_true_eq] at hit
        have hne : ¬ timeout ≤ elapsed := not_le.mpr hit.2
        simp [execItem, hit.1, hne, execOrder, Item.opId, Item.op]
    rw [runItems_cons_ok it rest hexec.1]
    refine ⟨?_, ih2⟩
    show execOrder ((execItem it).1 ++ (runItems rest).events) = _
    rw [execOrder_append, hexec.2, ih1]
    simp

/-- Witness for `run_executes_in_acceptance_order` at a concrete queue mixing
all three submission primitives. -/
theorem run_executes_in_acceptance_order_witness :
    execOrder (runItems [Item.plain ⟨1, Body.ok⟩, Item.join ⟨2, Body.ok⟩,
        Item.joinT ⟨3, Body.ok⟩ 0 5]).events =
      [Item.plain ⟨1, Body.ok⟩, Item.join ⟨2, Body.ok⟩,
        Item.joinT ⟨3, Body.ok⟩ 0 5].map Item.opId ∧
    (runItems [Item.plain ⟨1, Body.ok⟩, Item.join ⟨2, Body.ok⟩,
        Item.joinT ⟨3, Body.ok⟩ 0 5]).panicked = false :=
  run_executes_in_acceptance_order
    [Item.plain ⟨1, Body.ok⟩, Item.join ⟨2, Body.ok⟩, Item.joinT ⟨3, Body.ok⟩ 0 5]
    (by decide)

/-- C6: `Join(ctx, op)` blocks on the private channel `c` and returns `true`
exactly when the wrapper's send `c <- true` is received — the event
`signal op.id true`. The theorem decomposes the worker trace around the
`Join` wrapper: the caller's unblocking signal appears immediately after
`ran op.id` (the operation's completed execution), every item submitted after
the wrapper produces its events strictly later in the trace, and (second
conjunct, under freshness of the operation identifier) the `true` signal can
occur at all only when the operation body ran to completion and no earlier
item had killed the loop. Hence `Join` never returns `true` before its
operation completes, and never while a later-submitted operation has run
first. -/
theorem join_returns_only_after_completion (pre post : List Item) (op : Op)
    (hfresh : ∀ it ∈ pre, it.opId ≠ op.id) :
    ((runItems (pre ++ Item.join op :: post)).events =
        (runItems pre).events ++
          (if (runItems pre).panicked then []
           else
             match op.body with
             | Body.ok =>
                 Event.ran op.id :: Event.signal op.id true ::
                   (runItems post).events
             | Body.panics => [Event.faulted op.id])) ∧
    (Event.signal op.id true ∈ (runItems (pre ++ Item.join op :: post)).events →
        op.body = Body.ok ∧ (runItems pre).panicked = false) := by
  constructor
  · rw [runItems_append]
    by_cases hp : (runItems pre).panicked
    · simp [hp]
    · simp only [hp, if_false, Bool.false_eq_true]
      cases hb : op.body
      · rw [runItems_cons_ok (Item.join op) post (by simp [execItem, hb])]
        simp [execItem, hb]
      · rw [runItems_cons_bad (Item.join op) post (by simp [execItem, hb])]
        simp [execItem, hb]
  · intro hmem
    rw [runItems_append] at hmem
    by_cases hp : (runItems pre).panicked
    · simp only [hp, if_true] at hmem
      have hin := evId_mem_of_mem_runItems pre _ hmem
      simp only [Event.evId] at hin
      obtain ⟨it, hit, hid⟩ := List.mem_map.mp hin
      exact absurd hid (hfresh it hit)
    · simp only [hp, if_false, Bool.false_eq_true] at hmem
      rcases List.mem_append.mp hmem with h1 | h2
      · have hin := evId_mem_of_mem_runItems pre _ h1
        simp only [Event.evId] at hin
        obtain ⟨it, hit, hid⟩ := List.mem_map.mp hin
        exact absurd hid (hfresh it hit)
      · cases hb : op.body
        · exact ⟨rfl, Bool.eq_false_iff.mpr hp⟩
        · rw [runItems_cons_bad (Item.join op) post (by simp [execItem, hb])] at h2
          simp [execItem, hb] at h2

/-- Witness for `join_returns_only_after_completion`: queue
`[plain 1, Join-wrapper 2, plain 3]`, all bodies returning normally; the
trace is `ran 1, ran 2, signal 2 true, ran 3` — the `Join` caller is
unblocked immediately after its operation completes and before item 3 runs. -/
theorem join_returns_only_after_completion_witness :
    (runItems [Item.plain ⟨1, Body.ok⟩, Item.join ⟨2, Body.ok⟩,
        Item.plain ⟨3, Body.ok⟩]).events =
      [Event.ran 1, Event.ran 2, Event.signal 2 true, Event.ran 3] := by
  have h := join_returns_only_after_completion [Item.plain ⟨1, Body.ok⟩]
    [Item.plain ⟨3, Body.ok⟩] ⟨2, Body.ok⟩ (by decide)
  simpa using h.1

/-- C7 counterexample: the claim states the completion signal is sent
unconditionally right after the operation call even when the operation
faults, so the blocked `Join` caller is unblocked. In the code the wrapper is
`func(ctx) { op(ctx); c <- true }` with no deferred guard: a panic in `op`
unwinds before the send. Evaluating the embedded loop on a queue holding one
`Join` wrapper whose operation faults: the trace contains the fault and no
signal at all — the caller is never unblocked. -/
theorem join_fault_no_signal_cex :
    runItems [Item.join ⟨5, Body.panics⟩] = ⟨[Event.faulted 5], true⟩ ∧
    Event.signal 5 true ∉ (runItems [Item.join ⟨5, Body.panics⟩]).events ∧
    Event.signal 5 false ∉ (runItems [Item.join ⟨5, Body.panics⟩]).events := by
  decide

/-- C7 amended: when a `Join`-submitted operation faults, no completion
signal (neither `true` nor `false`) is ever sent on the caller's private
channel — the caller stays blocked forever rather than being unblocked —
and (the panic reaching the wrapper) the worker loop itself terminates. -/
theorem join_fault_strands_caller (pre post : List Item) (op : Op)
    (hfresh : ∀ it ∈ pre, it.opId ≠ op.id) (hop : op.body = Body.panics) :
    (∀ b, Event.signal op.id b ∉
        (runItems (pre ++ Item.join op :: post)).events) ∧
    ((runItems pre).panicked = false →
        (runItems (pre ++ Item.join op :: post)).panicked = true) := by
  have hbad : (execItem (Item.join op)).2 = true := by simp [execItem, hop]
  constructor
  · intro b hmem
    rw [runItems_append] at hmem
    by_cases hp : (runItems pre).panicked
    · simp only [hp, if_true] at hmem
      have hin := evId_mem_of_mem_runItems pre _ hmem
      simp only [Event.evId] at hin
      obtain ⟨it, hit, hid⟩ := List.mem_map.mp hin
      exact absurd hid (hfresh it hit)
    · simp only [hp, if_false, Bool.false_eq_true] at hmem
      rcases List.mem_append.mp hmem with h1 | h2
      · have hin := evId_mem_of_mem_runItems pre _ h1
        simp only [Event.evId] at hin
        obtain ⟨it, hit, hid⟩ := List.mem_map.mp hin
        exact absurd hid (hfresh it hit)
      · rw [runItems_cons_bad (Item.join op) post hbad] at h2
        simp [execItem, hop] at h2
  · intro hp
    rw [runItems_append]
    simp only [hp, Bool.false_eq_true, if_false]
    rw [runItems_cons_bad (Item.join op) post hbad]

/-- Witness for `join_fault_strands_caller`: a faulting `Join` operation
after one normally-completing item, with one item queued behind it. -/
theorem join_fault_strands_caller_witness :
    Event.signal 9 true ∉
      (runItems [Item.plain ⟨1, Body.ok⟩, Item.join ⟨9, Body.panics⟩,
          Item.plain ⟨3, Body.ok⟩]).events ∧
    (runItems [Item.plain ⟨1, Body.ok⟩, Item.join ⟨9, Body.panics⟩,
        Item.plain ⟨3, Body.ok⟩]).panicked = true := by
  have h := join_fault_strands_caller [Item.plain ⟨1, Body.ok⟩]
    [Item.plain ⟨3, Body.ok⟩] ⟨9, Body.panics⟩ (by decide) rfl
  exact ⟨h.1 true, h.2 (by decide)⟩

/-- C5: the wrapper built by `JoinTimeout(ctx, startTimeout, op)` records
`started := time.Now()` at submission and, at the moment it is dequeued and
begins executing, tests `time.Since(started) >= startTimeout` (here
`elapsed` is the dequeue-minus-submission time in nanoseconds). If the wait
exceeded `startTimeout` it sends `false` to the caller without invoking the
operation body; with `startTimeout = 0` any elapsed time triggers the skip,
so any nonzero delay yields `false` and the body never runs. -/
theorem joinTimeout_skips_stale (op : Op) (elapsed timeout : Nat) :
    (timeout < elapsed →
        execItem (Item.joinT op elapsed timeout) =
          ([Event.signal op.id false], false)) ∧
    (0 < elapsed →
        execItem (Item.joinT op elapsed 0) =
          ([Event.signal op.id false], false)) ∧
    (timeout ≤ elapsed →
        Event.ran op.id ∉ (execItem (Item.joinT op elapsed timeout)).1) := by
  refine ⟨?_, ?_, ?_⟩
  · intro h
    simp [execItem, le_of_lt h]
  · intro _
    simp [execItem]
  · intro h
    simp [execItem, h]

/-- Witness for `joinTimeout_skips_stale`: a wrapper submitted with
`startTimeout = 0` and dequeued 3ns later is skipped and signals `false`. -/
theorem joinTimeout_skips_stale_witness :
    execItem (Item.joinT ⟨4, Body.ok⟩ 3 0) = ([Event.signal 4 false], false) :=
  (joinTimeout_skips_stale ⟨4, Body.ok⟩ 3 0).2.1 (by decide)

/-- Lifecycle state of a `JobQueue` value. The Go struct holds `ctx`,
`cancel` and the channel `op`; the model records whether `ctx`/`cancel` are
non-nil (`ctxSet`/`cancelSet`), whether the channel is open (`close(q.op)`
flips it), its capacity (`backlog`, fixed by `make(chan JobOp, backlog)`),
and how many submissions are currently buffered. -/
structure JobQueue where
  ctxSet : Bool
  cancelSet : Bool
  chanOpen : Bool
  backlog : Nat
  pending : Nat
deriving DecidableEq

/-- Embeds `NewJobQueue(name, logger, backlog)`: channel allocated with the
given capacity, context and cancel fields nil. -/
def NewJobQueue (backlog : Nat) : JobQueue :=
  ⟨false, false, true, backlog, 0⟩

/-- Embeds `JobQueue.Initialize(ctx)`: `q.ctx, q.cancel = context.WithCancel(ctx)`
sets both fields non-nil. (Named `setupCtx` in the embedding.) -/
def JobQueue.setupCtx (q : JobQueue) : JobQueue :=
  {q with ctxSet := true, cancelSet := true}

/-- Runtime faults of the Go primitives used by the queue: calling a nil
function value, sending on a closed channel, closing a closed channel. -/
inductive GoFault
  | nilFunctionCall
  | sendOnClosedChannel
  | closeOfClosedChannel
deriving DecidableEq

/-- Embeds `JobQueue.Stop`: executes `q.cancel()`, then `close(q.op)`, then
clears `q.ctx` and `q.cancel`. In Go, `q.cancel()` panics when `q.cancel` is
nil, and `close` panics on an already-closed channel; the two fault points
are modelled in source order. -/
def JobQueue.Stop (q : JobQueue) : Except GoFault JobQueue :=
  if q.cancelSet = false then .error .nilFunctionCall
  else if q.chanOpen = false then .error .closeOfClosedChannel
  else .ok {q with chanOpen := false, ctxSet := false, cancelSet := false}

/-- Outcome of a submission primitive for its caller: the call returns
normally (with the updated queue), the caller suspends on the channel
operation (returning only if some other task later completes the rendezvous
— never, when no worker is consuming), or a runtime fault panics the
caller. -/
inductive SubmitOutcome
  | accepted (q : JobQueue)
  | blocked
  | faulted (f : GoFault)
deriving DecidableEq

/-- Embeds `JobQueue.Enqueue`: the single statement `q.op <- op`. Go's send
on a closed channel panics; a send on an open channel whose buffer is full
suspends the caller; otherwise the operation is buffered and the call
returns at acceptance (not at execution). The model is the snapshot without
an actively receiving worker (a concurrently blocked receiver would also let
a full-buffer send complete). -/
def JobQueue.Enqueue (q : JobQueue) : SubmitOutcome :=
  if q.chanOpen = false then .faulted .sendOnClosedChannel
  else if q.pending < q.backlog then .accepted {q with pending := q.pending + 1}
  else .blocked

/-- Outcome for a `Join`/`JoinTimeout` caller when no `Run` goroutine is
consuming: the caller executes `q.op <- wrapper` then `return <-c`. If the
channel is closed the send panics; if the buffer is full the send suspends
forever (no consumer); if the wrapper is buffered, the wrapper is never
invoked (no worker), so the receive from `c` suspends forever. Every
non-fault path leaves the caller blocked. -/
def JobQueue.joinNoWorker (q : JobQueue) : SubmitOutcome :=
  if q.chanOpen = false then .faulted .sendOnClosedChannel
  else .blocked

theorem stop_ok_state (q q' : JobQueue) (h : JobQueue.Stop q = Except.ok q') :
    q'.ctxSet = false ∧ q'.cancelSet = false ∧ q'.chanOpen = false := by
  unfold JobQueue.Stop at h
  split at h
  · cases h
  · split at h
    · cases h
    · simp only [Except.ok.injEq] at h
      subst h
      exact ⟨rfl, rfl, rfl⟩

/-- C3 counterexample: the claim states `Enqueue` after a completed `Stop`
neither panics the caller nor blocks forever. On a queue built with backlog
1, initialized and stopped, `Enqueue` is `q.op <- op` on the channel `Stop`
closed: Go's send on a closed channel — the caller panics. -/
theorem enqueue_after_stop_panics_cex :
    JobQueue.Stop (JobQueue.setupCtx (NewJobQueue 1)) =
      Except.ok ⟨false, false, false, 1, 0⟩ ∧
    JobQueue.Enqueue ⟨false, false, false, 1, 0⟩ =
      SubmitOutcome.faulted GoFault.sendOnClosedChannel :=
  ⟨rfl, rfl⟩

/-- C3 amended: after any completed `Stop`, a subsequent `Enqueue` faults
with the send-on-closed-channel panic in the caller — a detectable (and
immediate) condition, never an indefinite block, but a panic rather than a
returned error. -/
theorem enqueue_after_stop_faults (q q' : JobQueue)
    (h : JobQueue.Stop q = Except.ok q') :
    JobQueue.Enqueue q' = SubmitOutcome.faulted GoFault.sendOnClosedChannel := by
  have hc := (stop_ok_state q q' h).2.2
  simp [JobQueue.Enqueue, hc]

/-- Witness for `enqueue_after_stop_faults` on a freshly initialized queue of
backlog 2. -/
theorem enqueue_after_stop_faults_witness :
    JobQueue.Enqueue ⟨false, false, false, 2, 0⟩ =
      SubmitOutcome.faulted GoFault.sendOnClosedChannel :=
  enqueue_after_stop_faults (JobQueue.setupCtx (NewJobQueue 2))
    ⟨false, false, false, 2, 0⟩ rfl

/-- C8 counterexample: the claim states a second `Stop` faults by
double-closing the channel. In the code the first `Stop` sets `q.cancel` to
nil, so the second `Stop` panics earlier, at the call `q.cancel()` (call of a
nil function value) — execution never reaches `close(q.op)`, so the fault is
not the double-close the claim names. -/
theorem second_stop_nil_cancel_cex :
    JobQueue.Stop (JobQueue.setupCtx (NewJobQueue 0)) =
      Except.ok ⟨false, false, false, 0, 0⟩ ∧
    JobQueue.Stop ⟨false, false, false, 0, 0⟩ =
      Except.error GoFault.nilFunctionCall ∧
    GoFault.nilFunctionCall ≠ GoFault.closeOfClosedChannel :=
  ⟨rfl, rfl, by decide⟩

/-- C8 amended: a second `Stop` on an initialized-and-stopped queue does not
return normally — it panics calling the nil cancellation function (the first
`Stop` cleared `q.cancel`), faulting before the channel could be closed a
second time. -/
theorem second_stop_faults_on_nil_cancel (q q' : JobQueue)
    (h : JobQueue.Stop q = Except.ok q') :
    JobQueue.Stop q' = Except.error GoFault.nilFunctionCall := by
  have hc := (stop_ok_state q q' h).2.1
  simp [JobQueue.Stop, hc]

/-- Witness for `second_stop_faults_on_nil_cancel`. -/
theorem second_stop_faults_on_nil_cancel_witness :
    JobQueue.Stop ⟨false, false, false, 3, 0⟩ =
      Except.error GoFault.nilFunctionCall :=
  second_stop_faults_on_nil_cancel (JobQueue.setupCtx (NewJobQueue 3))
    ⟨false, false, false, 3, 0⟩ rfl

/-- C9 counterexample: the claim states no submission before `Initialize`
returns normally. But `Enqueue` is a bare channel send and the channel is
allocated by `NewJobQueue` itself: with backlog 1 and an empty buffer the
send is buffered and `Enqueue` returns normally at once (the source comment
on `NewJobQueue` says exactly this: without Initialize, Enqueue takes up to
`backlog` operations before blocking). -/
theorem enqueue_before_init_returns_cex :
    JobQueue.Enqueue (NewJobQueue 1) =
      SubmitOutcome.accepted ⟨false, false, true, 1, 1⟩ := by
  decide

/-- C9 amended: before `Initialize`, `Enqueue` returns normally while the
buffer has free capacity (up to `backlog`) and suspends once full, while
`Join`/`JoinTimeout` always leave their caller suspended forever (the
wrapper is accepted but no worker ever invokes it, so the completion receive
never fires; with a full buffer the send itself suspends); no submission
primitive panics — submissions never dereference the nil context. -/
theorem pre_init_submissions (backlog : Nat) :
    (0 < backlog →
        JobQueue.Enqueue (NewJobQueue backlog) =
          SubmitOutcome.accepted ⟨false, false, true, backlog, 1⟩) ∧
    (backlog = 0 →
        JobQueue.Enqueue (NewJobQueue 0) = SubmitOutcome.blocked) ∧
    JobQueue.joinNoWorker (NewJobQueue backlog) = SubmitOutcome.blocked := by
  refine ⟨?_, ?_, ?_⟩
  · intro h
    simp [JobQueue.Enqueue, NewJobQueue, h]
  · intro _
    simp [JobQueue.Enqueue, NewJobQueue]
  · simp [JobQueue.joinNoWorker, NewJobQueue]

/-- Witness for `pre_init_submissions` at backlog 1. -/
theorem pre_init_submissions_witness :
    JobQueue.Enqueue (NewJobQueue 1) =
      SubmitOutcome.accepted ⟨false, false, true, 1, 1⟩ ∧
    JobQueue.joinNoWorker (NewJobQueue 1) = SubmitOutcome.blocked :=
  ⟨(pre_init_submissions 1).1 (by decide), (pre_init_submissions 1).2.2⟩

/-- Interleaving state for the race between `Run`'s `select`, producers and
`Stop`. `buffer` is the channel content (operation ids), `closed` whether
`close(q.op)` has run, `cancelled` whether the context's cancellation has
fired, `ctxNil` whether `Stop` has cleared the `q.ctx` field, `stopped`
whether `Stop` has completed, `workerInSelect` whether the `Run` goroutine
has entered the `select` (evaluating `q.ctx.Done()` at entry), `workerAlive`
whether `Run` is still looping, and `executed` the ids dequeued and run. -/
structure SelState where
  buffer : List Nat
  closed : Bool
  cancelled : Bool
  ctxNil : Bool
  stopped : Bool
  workerInSelect : Bool
  workerAlive : Bool
  executed : List Nat
deriving DecidableEq

/-- Small-step relation for the queue's concurrency. Go's `select` chooses
uniformly at random among ready cases, so each ready case is a possible
step. Entering the `select` evaluates `q.ctx.Done()`: after `Stop` has set
`q.ctx = nil` this panics (method call through a nil interface), killing the
worker. A receive on the closed-but-nonempty channel still yields buffered
operations; on the closed empty channel it yields the nil sentinel and the
loop returns. -/
inductive QStep : SelState → SelState → Prop
  | enterSelect (s : SelState) :
      s.workerAlive = true → s.workerInSelect = false → s.ctxNil = false →
      QStep s {s with workerInSelect := true}
  | nilCtxFault (s : SelState) :
      s.workerAlive = true → s.workerInSelect = false → s.ctxNil = true →
      QStep s {s with workerAlive := false}
  | recvOp (s : SelState) (x : Nat) (rest : List Nat) :
      s.workerAlive = true → s.workerInSelect = true → s.buffer = x :: rest →
      QStep s {s with buffer := rest, executed := s.executed ++ [x], workerInSelect := false}
  | recvClosed (s : SelState) :
      s.workerAlive = true → s.workerInSelect = true → s.buffer = [] →
      s.closed = true →
      QStep s {s with workerAlive := false, workerInSelect := false}
  | ctxDone (s : SelState) :
      s.workerAlive = true → s.workerInSelect = true → s.cancelled = true →
      QStep s {s with workerAlive := false, workerInSelect := false}
  | send (s : SelState) (x : Nat) :
      s.closed = false →
      QStep s {s with buffer := s.buffer ++ [x]}
  | stopDone (s : SelState) :
      s.stopped = false →
      QStep s {s with cancelled := true, closed := true, ctxNil := true, stopped := true}

/-- C4 counterexample: the claim states that once `Stop` completes, every
operation already admitted to the channel but not yet dequeued is discarded
and never executed. Trace refuting it: the worker enters its `select` on the
empty open queue; a producer sends operation 7; `Stop` completes (cancel,
close, nil the context) while the worker is still inside that `select` —
whose `Done()` channel was captured at entry. Both `select` cases are now
ready, and Go picks randomly: the step in which it picks the channel case
dequeues and executes operation 7 after `Stop` has completed, even though 7
was admitted-but-not-dequeued at that moment. -/
theorem stop_pending_op_executes_cex :
    QStep ⟨[], false, false, false, false, false, true, []⟩
      ⟨[], false, false, false, false, true, true, []⟩ ∧
    QStep ⟨[], false, false, false, false, true, true, []⟩
      ⟨[7], false, false, false, false, true, true, []⟩ ∧
    QStep ⟨[7], false, false, false, false, true, true, []⟩
      ⟨[7], true, true, true, true, true, true, []⟩ ∧
    QStep ⟨[7], true, true, true, true, true, true, []⟩
      ⟨[], true, true, true, true, false, true, [7]⟩ ∧
    (⟨[7], true, true, true, true, true, true, []⟩ : SelState).stopped = true ∧
    (⟨[7], true, true, true, true, true, true, []⟩ : SelState).executed = [] ∧
    (⟨[], true, true, true, true, false, true, [7]⟩ : SelState).executed = [7] := by
  refine ⟨?_, ?_, ?_, ?_, rfl, rfl, rfl⟩
  · exact QStep.enterSelect _ rfl rfl rfl
  · exact QStep.send _ 7 rfl
  · exact QStep.stopDone _ rfl
  · exact QStep.recvOp _ 7 [] rfl rfl rfl

theorem qstep_at_loop_head_preserves (s s' : SelState) (h : QStep s s')
    (hnil : s.ctxNil = true) (hsel : s.workerInSelect = false) :
    s'.executed = s.executed ∧ s'.ctxNil = true ∧ s'.workerInSelect = false := by
  cases h with
  | enterSelect h1 h2 h3 => rw [hnil] at h3; exact Bool.noConfusion h3
  | nilCtxFault h1 h2 h3 => exact ⟨rfl, hnil, hsel⟩
  | recvOp x rest h1 h2 h3 => rw [hsel] at h2; exact Bool.noConfusion h2
  | recvClosed h1 h2 h3 h4 => rw [hsel] at h2; exact Bool.noConfusion h2
  | ctxDone h1 h2 h3 => rw [hsel] at h2; exact Bool.noConfusion h2
  | send x h1 => exact ⟨rfl, hnil, hsel⟩
  | stopDone h1 => exact ⟨rfl, rfl, hsel⟩

/-- C4 amended: pending operations are reliably discarded only once the
worker is back at the top of its loop (not inside a `select` entered before
`Stop` completed). From any state where `Stop` has nilled the context and
the worker is at the loop head, no reachable state executes anything
further: re-entering `select` evaluates `q.ctx.Done()` on the nil interface
and the resulting panic kills the worker, so `executed` never grows. (If the
worker was already inside a `select` with a buffered operation when `Stop`
completed, `stop_pending_op_executes_cex` shows that operation may still
execute.) -/
theorem stop_discards_pending_at_loop_head (s s' : SelState)
    (h : Relation.ReflTransGen QStep s s')
    (hnil : s.ctxNil = true) (hsel : s.workerInSelect = false) :
    s'.executed = s.executed := by
  have key : s'.executed = s.executed ∧ s'.ctxNil = true ∧
      s'.workerInSelect = false := by
    induction h with
    | refl => exact ⟨rfl, hnil, hsel⟩
    | tail hab hbc ih =>
      obtain ⟨ih1, ih2, ih3⟩ := ih
      obtain ⟨e1, e2, e3⟩ := qstep_at_loop_head_preserves _ _ hbc ih2 ih3
      exact ⟨e1.trans ih1, e2, e3⟩
  exact key.1

/-- Witness for `stop_discards_pending_at_loop_head`: after `Stop`
completed with operation 9 still buffered and the worker at the loop head,
the worker dies on the nil-context panic and 9 is never executed. -/
theorem stop_discards_pending_at_loop_head_witness :
    (⟨[9], true, true, true, true, false, false, []⟩ : SelState).executed =
      (⟨[9], true, true, true, true, false, true, []⟩ : SelState).executed :=
  stop_discards_pending_at_loop_head _ _
    (Relation.ReflTransGen.single (QStep.nilCtxFault _ rfl rfl rfl)) rfl rfl

/-- Embeds Go's `strings.Split(s, sep)` for a single-character separator:
splitting the empty string yields one empty field, and every occurrence of
the separator starts a new field (a trailing separator yields a trailing
empty field). -/
def goSplit (sep : Char) : List Char → List (List Char)
  | [] => [[]]
  | c :: cs =>
      if c = sep then [] :: goSplit sep cs
      else
        match goSplit sep cs with
        | [] => [[c]]
        | a :: rest => (c :: a) :: rest

/-- First occurrence split for `goSplitN`: the characters before the first
separator and those after it, or `none` when the separator is absent. -/
def breakOnChar (sep : Char) : List Char → Option (List Char × List Char)
  | [] => none
  | c :: cs =>
      if c = sep then some ([], cs)
      else
        match breakOnChar sep cs with
        | none => none
        | some (a, b) => some (c :: a, b)

/-- Embeds Go's `strings.SplitN(s, sep, n)` for a single-character separator
and `n ≥ 0`: `n = 0` yields no substrings, and for `n > 0` at most `n`
substrings are produced, the last one unsplit — in particular `n = 1`
returns the whole string as its only element. -/
def goSplitN (sep : Char) : Nat → List Char → List (List Char)
  | 0, _ => []
  | 1, s => [s]
  | n + 2, s =>
      match breakOnChar sep s with
      | none => [s]
      | some (a, b) => a :: goSplitN sep (n + 1) b

/-- Error cases of `ParseConfstr`, in the order the Go code tests them. -/
inductive ConfErr
  | keyMissing
  | invalidEmpty
  | modeHasSep
  | pairSplitFailed
  | emptyVal
deriving DecidableEq

/-- Embeds the option-collecting loop of `ParseConfstr`
(`for i := 1; i < len(config); i++`): each segment is split by
`strings.SplitN(config[i], "=", 1)`, a result without exactly two parts is
an error, an empty value is an error, otherwise the pair is recorded. -/
def parseOpts : List (List Char) → Except ConfErr (List (List Char × List Char))
  | [] => .ok []
  | seg :: rest =>
      match goSplitN '=' 1 seg with
      | [k, v] =>
          if v = [] then .error .emptyVal
          else
            match parseOpts rest with
            | .error e => .error e
            | .ok opts => .ok ((k, v) :: opts)
      | _ => .error .pairSplitFailed

/-- Embeds `ParseConfstr(key, globalConfig)` (the `globalConfig != nil`
branch; the nil branch reads `os.LookupEnv` and then performs the identical
parse, so the environment is modelled as another lookup function): look the
key up, split the string on ';', reject an empty split result, take the
first field as the mode (which must not contain '='), and parse the
remaining fields as key=value options. -/
def ParseConfstr (key : List Char) (globalConfig : List Char → Option (List Char)) :
    Except ConfErr (List Char × List (List Char × List Char)) :=
  match globalConfig key with
  | none => .error .keyMissing
  | some configString =>
      let config := goSplit ';' configString
      if config.length < 1 then .error .invalidEmpty
      else
        let mode := config.headD []
        if '=' ∈ mode then .error .modeHasSep
        else
          match parseOpts config.tail with
          | .error e => .error e
          | .ok opts => .ok (mode, opts)

theorem goSplit_ne_nil (sep : Char) (s : List Char) : goSplit sep s ≠ [] := by
  induction s with
  | nil => simp [goSplit]
  | cons c cs ih =>
    rw [goSplit]
    by_cases h : c = sep
    · simp [h]
    · rw [if_neg h]
      rcases hgs : goSplit sep cs with _ | ⟨a, rest⟩
      · exact absurd hgs ih
      · simp

theorem goSplit_of_not_mem (sep : Char) (s : List Char) (h : sep ∉ s) :
    goSplit sep s = [s] := by
  induction s with
  | nil => rfl
  | cons c cs ih =>
    have hc : ¬ c = sep := fun e => h (e ▸ List.mem_cons_self c cs)
    rw [goSplit, if_neg hc, ih fun hm => h (List.mem_cons_of_mem c hm)]

theorem goSplit_of_mem (sep : Char) (s : List Char) (h : sep ∈ s) :
    2 ≤ (goSplit sep s).length := by
  induction s with
  | nil => cases h
  | cons c cs ih =>
    rw [goSplit]
    by_cases hc : c = sep
    · rw [if_pos hc]
      have h1 : 1 ≤ (goSplit sep cs).length :=
        List.length_pos.mpr (goSplit_ne_nil sep cs)
      simp only [List.length_cons]
      omega
    · rw [if_neg hc]
      have hmem : sep ∈ cs := by
        rcases List.mem_cons.mp h with he | hm
        · exact absurd he.symm hc
        · exact hm
      rcases hgs : goSplit sep cs with _ | ⟨a, rest⟩
      · exact absurd hgs (goSplit_ne_nil sep cs)
      · have h2 := ih hmem
        rw [hgs] at h2
        simpa using h2

theorem parseOpts_cons (x : List Char) (xs : List (List Char)) :
    parseOpts (x :: xs) = Except.error ConfErr.pairSplitFailed := rfl

/-- C10: `ParseConfstr` errors on every found configuration string holding at
least one ';' separator — each post-mode segment is split by
`SplitN(segment, "=", 1)`, which returns a single part, never the required
two — and succeeds exactly on a string with no ';' and no '=', returning the
whole string as the mode with an empty option map. -/
theorem parseConfstr_rejects_pairs (key s : List Char)
    (gc : List Char → Option (List Char)) (hfound : gc key = some s) :
    (';' ∈ s → ∃ e, ParseConfstr key gc = Except.error e) ∧
    ('=' ∈ s → ∃ e, ParseConfstr key gc = Except.error e) ∧
    (';' ∉ s → '=' ∉ s → ParseConfstr key gc = Except.ok (s, [])) := by
  have part1 : ';' ∈ s → ∃ e, ParseConfstr key gc = Except.error e := by
    intro h1
    have hlen := goSplit_of_mem ';' s h1
    rcases hgs : goSplit ';' s with _ | ⟨m, tail⟩
    · exact absurd hgs (goSplit_ne_nil ';' s)
    · rcases tail with _ | ⟨seg, rest⟩
      · rw [hgs] at hlen
        simp at hlen
      · by_cases hm : '=' ∈ m
        · exact ⟨ConfErr.modeHasSep, by
            simp [ParseConfstr, hfound, hgs, hm]⟩
        · exact ⟨ConfErr.pairSplitFailed, by
            simp [ParseConfstr, hfound, hgs, hm, parseOpts_cons]⟩
  refine ⟨part1, ?_, ?_⟩
  · intro h2
    by_cases h1 : ';' ∈ s
    · exact part1 h1
    · exact ⟨ConfErr.modeHasSep, by
        simp [ParseConfstr, hfound, goSplit_of_not_mem ';' s h1, h2]⟩
  · intro h1 h2
    simp [ParseConfstr, hfound, goSplit_of_not_mem ';' s h1, h2, parseOpts]

/-- Witness for `parseConfstr_rejects_pairs` at the format's own
documented example string. -/
theorem parseConfstr_rejects_pairs_witness :
    ∃ e, ParseConfstr "FLO_CONF".toList
      (fun _ => some "test;key1=value;key2=other value;".toList) =
        Except.error e :=
  (parseConfstr_rejects_pairs "FLO_CONF".toList
      "test;key1=value;key2=other value;".toList
      (fun _ => some "test;key1=value;key2=other value;".toList) rfl).1
    (by decide)

end Gobase
